import Mathlib

/-!
Verification development for the mhagmajer server-router package.

The definitions below are a shallow embedding of the package's server and
client source (src/server/server-router.js and
src/client/server-router-client.js).  JavaScript objects are embedded as
insertion-ordered association lists, JavaScript property assignment as
`objSet`, underscore's `extend` as `extendObj`, and the promise-chain
dispatch loop of `ServerRouter._middleware` as a left fold over the ordered
list of registered path entries.
-/

namespace ServerRouter

/-! ## JavaScript objects as insertion-ordered association lists -/

/-- Property read `o[k]` on a plain JavaScript object: the value stored at
the first (unique) occurrence of key `k`, if any. -/
def objGet {α : Type} : List (String × α) → String → Option α
  | [], _ => none
  | (k', v) :: rest, k => if k' = k then some v else objGet rest k

/-- Property write `o[k] = v` on a plain JavaScript object: overwrite in
place if the key exists, otherwise append the new key in insertion order. -/
def objSet {α : Type} : List (String × α) → String → α → List (String × α)
  | [], k, v => [(k, v)]
  | (k', v') :: rest, k, v =>
    if k' = k then (k', v) :: rest else (k', v') :: objSet rest k v

/-- Underscore's `_.extend(dst, src)`: assign every own property of `src`
onto `dst`, shallowly, in key order. -/
def extendObj {α : Type} (dst src : List (String × α)) : List (String × α) :=
  src.foldl (fun d kv => objSet d kv.1 kv.2) dst

@[simp] theorem objGet_objSet_self {α : Type} (o : List (String × α)) (k : String) (v : α) :
    objGet (objSet o k v) k = some v := by
  induction o with
  | nil => simp [objSet, objGet]
  | cons hd tl ih =>
    obtain ⟨a, b⟩ := hd
    by_cases h : a = k
    · simp [objSet, objGet, h]
    · simp [objSet, objGet, h, ih]

theorem objGet_objSet_ne {α : Type} (o : List (String × α)) (k k' : String) (v : α)
    (h : k' ≠ k) : objGet (objSet o k v) k' = objGet o k' := by
  have h2 : k ≠ k' := Ne.symm h
  induction o with
  | nil => simp [objSet, objGet, h2]
  | cons hd tl ih =>
    obtain ⟨a, b⟩ := hd
    by_cases hp : a = k
    · have ha : a ≠ k' := by rw [hp]; exact h2
      simp [objSet, objGet, hp, ha, h2]
    · by_cases hq : a = k'
      · simp [objSet, objGet, hp, hq, h]
      · simp [objSet, objGet, hp, hq, ih]

theorem mem_objSet_of_ne {α : Type} (o : List (String × α)) (k k' : String) (v v' : α)
    (hm : (k, v) ∈ o) (h : k ≠ k') : (k, v) ∈ objSet o k' v' := by
  induction o with
  | nil => exact absurd hm (List.not_mem_nil _)
  | cons hd tl ih =>
    obtain ⟨a, b⟩ := hd
    rcases List.mem_cons.mp hm with hm | hm
    · have ha : a ≠ k' := by
        have : a = k := congrArg Prod.fst hm.symm
        rw [this]; exact h
      rw [objSet, if_neg ha]
      exact List.mem_cons.mpr (Or.inl hm)
    · by_cases hp : a = k'
      · rw [objSet, if_pos hp]
        exact List.mem_cons.mpr (Or.inr hm)
      · rw [objSet, if_neg hp]
        exact List.mem_cons.mpr (Or.inr (ih hm))

/-! ## Route table (ServerRouter._routes, addRoutes, getFieldValue)

A routes object is a nested dictionary whose leaves are route handler
functions; a handler is represented abstractly by a payload of type α. -/

/-- A node of the nested routes dictionary: either a route function (leaf)
or a nested plain object. -/
inductive RouteNode (α : Type) where
  | leaf : α → RouteNode α
  | node : List (String × RouteNode α) → RouteNode α

/-- The routes object held in `ServerRouter._routes`. -/
abbrev Routes (α : Type) := List (String × RouteNode α)

/-- Source method `addRoutes(routes)`, whose body is
`_.extend(this._routes, routes)`: a shallow merge of the new routes object
onto the existing one. -/
def addRoutes {α : Type} (rs new : Routes α) : Routes α :=
  extendObj rs new

/-- Model of the JavaScript call `field.split(sep)` for a one-character
separator, as used by `getFieldValue` with separator period.  Splitting the
empty string yields one empty segment, exactly as in JavaScript. -/
def splitCharAux (sep : Char) : List Char → List Char → List String
  | [], acc => [String.mk acc.reverse]
  | c :: cs, acc =>
    if c = sep then String.mk acc.reverse :: splitCharAux sep cs []
    else splitCharAux sep cs (c :: acc)

/-- JavaScript `s.split('.')`. -/
def splitDots (s : String) : List String :=
  splitCharAux '.' s.data []

/-- One step of the reduce inside the source function `getFieldValue`:
`(o, part) => o && o[part]`.  Reading a property of a route function (leaf)
yields undefined. -/
def fieldStep {α : Type} : Option (RouteNode α) → String → Option (RouteNode α)
  | none, _ => none
  | some (.leaf _), _ => none
  | some (.node m), part => objGet m part

/-- Source function `getFieldValue(obj, field)`: split the dotted name on
periods and walk the nested object, short-circuiting on missing keys. -/
def getFieldValue {α : Type} (rs : Routes α) (field : String) : Option (RouteNode α) :=
  (splitDots field).foldl fieldStep (some (.node rs))

/-- Resolution of a dotted route name to a registered handler: the walk in
`getFieldValue` must end on a leaf. -/
def lookupRoute {α : Type} (rs : Routes α) (name : String) : Option α :=
  match getFieldValue rs name with
  | some (.leaf h) => some h
  | _ => none

theorem splitDots_ab : splitDots "a.b" = ["a", "b"] := by decide
theorem splitDots_ac : splitDots "a.c" = ["a", "c"] := by decide

theorem extendObj_singleton {α : Type} (rs : Routes α) (k : String) (v : RouteNode α) :
    extendObj rs [(k, v)] = objSet rs k v := rfl

/-- Helper describing a dotted lookup of a two-segment name in terms of the
top-level object. -/
theorem getFieldValue_ab {α : Type} (rs : Routes α) :
    getFieldValue rs "a.b" = fieldStep (fieldStep (some (.node rs)) "a") "b" := by
  rw [getFieldValue, splitDots_ab]; rfl

theorem getFieldValue_ac {α : Type} (rs : Routes α) :
    getFieldValue rs "a.c" = fieldStep (fieldStep (some (.node rs)) "a") "c" := by
  rw [getFieldValue, splitDots_ac]; rfl

/-- C1, counterexample.  Merging the tree with leaf a.b = 1 and then the
tree with leaf a.c = 2 loses the leaf a.b entirely, because addRoutes is a
shallow merge: the second call overwrites the whole subtree stored under
the top-level key a. -/
theorem addRoutes_cex :
    lookupRoute
      (addRoutes (addRoutes ([] : Routes Nat)
        [("a", .node [("b", .leaf 1)])])
        [("a", .node [("c", .leaf 2)])]) "a.b" ≠ some 1 := by
  decide

/-- C1, amended.  The source addRoutes merges shallowly: a top-level key of
the new tree overwrites the entire existing subtree under that key, so
after merging a tree containing only a.c = r2, the name a.c resolves to r2
and a.b is no longer resolvable; a colliding leaf is overwritten; and
top-level keys not present in the new trees are untouched. -/
theorem addRoutes_shallow_merge {α : Type} (rs : Routes α) (r1 r2 : α) (k : String)
    (hk : k ≠ "a") :
    lookupRoute (addRoutes (addRoutes rs
        [("a", .node [("b", .leaf r1)])])
        [("a", .node [("c", .leaf r2)])]) "a.c" = some r2 ∧
    lookupRoute (addRoutes (addRoutes rs
        [("a", .node [("b", .leaf r1)])])
        [("a", .node [("c", .leaf r2)])]) "a.b" = none ∧
    lookupRoute (addRoutes (addRoutes rs
        [("a", .node [("b", .leaf r1)])])
        [("a", .node [("b", .leaf r2)])]) "a.b" = some r2 ∧
    objGet (addRoutes (addRoutes rs
        [("a", .node [("b", .leaf r1)])])
        [("a", .node [("c", .leaf r2)])]) k = objGet rs k := by
  refine ⟨?_, ?_, ?_, ?_⟩
  · rw [lookupRoute, getFieldValue_ac]
    rw [addRoutes, addRoutes, extendObj_singleton, extendObj_singleton]
    rw [show fieldStep (some (RouteNode.node
        (objSet (objSet rs "a" (.node [("b", .leaf r1)])) "a" (.node [("c", .leaf r2)])))) "a"
        = some (.node [("c", .leaf r2)]) by
      rw [fieldStep, objGet_objSet_self]]
    rfl
  · rw [lookupRoute, getFieldValue_ab]
    rw [addRoutes, addRoutes, extendObj_singleton, extendObj_singleton]
    rw [show fieldStep (some (RouteNode.node
        (objSet (objSet rs "a" (.node [("b", .leaf r1)])) "a" (.node [("c", .leaf r2)])))) "a"
        = some (.node [("c", .leaf r2)]) by
      rw [fieldStep, objGet_objSet_self]]
    rfl
  · rw [lookupRoute, getFieldValue_ab]
    rw [addRoutes, addRoutes, extendObj_singleton, extendObj_singleton]
    rw [show fieldStep (some (RouteNode.node
        (objSet (objSet rs "a" (.node [("b", .leaf r1)])) "a" (.node [("b", .leaf r2)])))) "a"
        = some (.node [("b", .leaf r2)]) by
      rw [fieldStep, objGet_objSet_self]]
    rfl
  · rw [addRoutes, addRoutes, extendObj_singleton, extendObj_singleton]
    rw [objGet_objSet_ne _ _ _ _ hk, objGet_objSet_ne _ _ _ _ hk]

/-- C1, witness for the amended theorem at a concrete router. -/
theorem addRoutes_shallow_merge_witness :
    ("z" : String) ≠ "a" ∧
    (lookupRoute (addRoutes (addRoutes ([("z", .leaf 9)] : Routes Nat)
        [("a", .node [("b", .leaf 1)])])
        [("a", .node [("c", .leaf 2)])]) "a.c" = some 2 ∧
    lookupRoute (addRoutes (addRoutes ([("z", .leaf 9)] : Routes Nat)
        [("a", .node [("b", .leaf 1)])])
        [("a", .node [("c", .leaf 2)])]) "a.b" = none ∧
    lookupRoute (addRoutes (addRoutes ([("z", .leaf 9)] : Routes Nat)
        [("a", .node [("b", .leaf 1)])])
        [("a", .node [("b", .leaf 2)])]) "a.b" = some 2 ∧
    objGet (addRoutes (addRoutes ([("z", .leaf 9)] : Routes Nat)
        [("a", .node [("b", .leaf 1)])])
        [("a", .node [("c", .leaf 2)])]) "z" = objGet ([("z", .leaf 9)] : Routes Nat) "z") :=
  ⟨by decide, addRoutes_shallow_merge [("z", .leaf 9)] 1 2 "z" (by decide)⟩

/-! ## Handler outcomes

The declared result type of a route is a promise of undefined, null,
string or Buffer; a route can also reject, either with the control-flow
signal AuthenticationRequiredError or with any other reason. -/

/-- Settled result of one route handler invocation. -/
inductive Outcome where
  | undef
  | nullRes
  | strRes : String → Outcome
  | bufRes : List Nat → Outcome
  | authErr
  | errRes : Nat → Outcome
deriving DecidableEq, Repr

/-! ## Auth token service

The per-user token set lives in the field _serverRouterTokens of the user
document; each entry pairs an opaque token value with an absolute expiry
timestamp.  The built-in path at the root consumes the query parameters
_u and _t, and the Meteor method _ServerRouterGetUserToken issues tokens.
Times are absolute milliseconds; Date.now() is passed explicitly. -/

/-- One entry of the _serverRouterTokens array: pushed by the token issuing
method as an object with fields expiry and token. -/
structure AuthToken where
  token : String
  expiry : Nat
deriving DecidableEq, Repr

/-- The Mongo selector `$elemMatch: (token, expiry: ($gte: Date.now()))`
applied to one array entry. -/
def tokenValidNow (now : Nat) (t : String) (a : AuthToken) : Bool :=
  a.token == t && decide (now ≤ a.expiry)

/-- The built-in auth route registered by the constructor at path `/` with
end anchoring disabled.  Input: the candidate user id and token from the
query parameters _u and _t, and the stored token set of that user.
Output: the settled handler outcome, the token set after the attempt, and
the userId the handler wrote into the request context (if any).

Following the source: if _u is absent the route declines; otherwise it
counts users matching id and a valid token entry; on no match it throws
AuthenticationRequiredError before any update is run; on a match it pulls
every entry whose token equals the candidate or whose expiry is in the
past, sets context.userId, and resolves undefined. -/
def authPathRoute (now : Nat) (userIdParam : Option String) (tokenParam : String)
    (tokens : List AuthToken) : Outcome × List AuthToken × Option String :=
  match userIdParam with
  | none => (.undef, tokens, none)
  | some u =>
    if tokens.any (tokenValidNow now tokenParam) then
      (.undef,
       tokens.filter (fun a => !(a.token == tokenParam || decide (a.expiry < now))),
       some u)
    else
      (.authErr, tokens, none)

/-- The Meteor method _ServerRouterGetUserToken: null without an identity;
otherwise push a fresh random token with expiry sixty seconds from now onto
the caller's token set and return the token value.  The random value is an
explicit argument. -/
def ServerRouterGetUserToken (userId : Option String) (now : Nat) (freshToken : String)
    (tokens : List AuthToken) : Option String × List AuthToken :=
  match userId with
  | none => (none, tokens)
  | some _ => (some freshToken, tokens ++ [⟨freshToken, now + 60 * 1000⟩])

/-- C2, counterexample.  A validation attempt that fails because the
stored token has expired leaves the token set untouched: the route throws
AuthenticationRequiredError before the purging update runs, so the expired
entry survives, contrary to the claim that every attempt purges expired
tokens. -/
theorem authPathRoute_no_purge_on_failure_cex :
    authPathRoute 10 (some "alice") "x" [⟨"x", 5⟩]
      = (.authErr, [⟨"x", 5⟩], none) ∧
    (⟨"x", 5⟩ : AuthToken) ∈ (authPathRoute 10 (some "alice") "x" [⟨"x", 5⟩]).2.1 := by
  decide

/-- C2, amended.  Expired tokens of a user are purged only by a successful
validation, which also consumes the matched token: on success exactly the
entries with a different token value and an unexpired timestamp survive;
on failure (token expired or not present) the token set is unchanged. -/
theorem authPathRoute_purge (now : Nat) (u t : String) (tokens : List AuthToken) :
    (tokens.any (tokenValidNow now t) = true →
      (authPathRoute now (some u) t tokens).1 = .undef ∧
      (authPathRoute now (some u) t tokens).2.2 = some u ∧
      ∀ a : AuthToken, a ∈ (authPathRoute now (some u) t tokens).2.1 ↔
        (a ∈ tokens ∧ a.token ≠ t ∧ now ≤ a.expiry)) ∧
    (tokens.any (tokenValidNow now t) = false →
      authPathRoute now (some u) t tokens = (.authErr, tokens, none)) := by
  constructor
  · intro hm
    rw [authPathRoute]
    simp only [hm, if_true]
    refine ⟨by trivial, by trivial, ?_⟩
    intro a
    simp [List.mem_filter, and_assoc, Nat.not_lt]
  · intro hm
    rw [authPathRoute]
    simp [hm]

/-- C2, witness for the amended theorem: a successful validation purges the
consumed and the expired entries and keeps the rest; a failed validation
changes nothing. -/
theorem authPathRoute_purge_witness :
    (([⟨"t1", 20⟩, ⟨"old", 3⟩, ⟨"keep", 50⟩] : List AuthToken).any (tokenValidNow 10 "t1") = true ∧
      (authPathRoute 10 (some "alice") "t1" [⟨"t1", 20⟩, ⟨"old", 3⟩, ⟨"keep", 50⟩]).1 = .undef ∧
      (authPathRoute 10 (some "alice") "t1" [⟨"t1", 20⟩, ⟨"old", 3⟩, ⟨"keep", 50⟩]).2.2 = some "alice" ∧
      ((⟨"keep", 50⟩ : AuthToken) ∈
        (authPathRoute 10 (some "alice") "t1" [⟨"t1", 20⟩, ⟨"old", 3⟩, ⟨"keep", 50⟩]).2.1 ↔
        ((⟨"keep", 50⟩ : AuthToken) ∈ ([⟨"t1", 20⟩, ⟨"old", 3⟩, ⟨"keep", 50⟩] : List AuthToken) ∧
          ("keep" : String) ≠ "t1" ∧ 10 ≤ 50))) ∧
    (([⟨"old", 3⟩] : List AuthToken).any (tokenValidNow 10 "nope") = false ∧
      authPathRoute 10 (some "alice") "nope" [⟨"old", 3⟩] = (.authErr, [⟨"old", 3⟩], none)) :=
  ⟨⟨by decide,
    (authPathRoute_purge 10 "alice" "t1" [⟨"t1", 20⟩, ⟨"old", 3⟩, ⟨"keep", 50⟩]).1 (by decide)
      |>.1,
    ((authPathRoute_purge 10 "alice" "t1" [⟨"t1", 20⟩, ⟨"old", 3⟩, ⟨"keep", 50⟩]).1 (by decide)).2.1,
    ((authPathRoute_purge 10 "alice" "t1" [⟨"t1", 20⟩, ⟨"old", 3⟩, ⟨"keep", 50⟩]).1 (by decide)).2.2 ⟨"keep", 50⟩⟩,
   ⟨by decide,
    (authPathRoute_purge 10 "alice" "nope" [⟨"old", 3⟩]).2 (by decide)⟩⟩

/-- C7.  Validation through the built-in auth path succeeds precisely when
the stored set has an entry whose token equals the candidate and whose
expiry is at or after the current time; a candidate whose stored entries
are all expired behaves exactly like a candidate with no stored entry at
all: same failure outcome and the token set untouched. -/
theorem authPathRoute_valid_iff (now : Nat) (u t : String) (tokens : List AuthToken) :
    ((authPathRoute now (some u) t tokens).2.2 = some u ↔
      ∃ a ∈ tokens, a.token = t ∧ now ≤ a.expiry) ∧
    ((∀ a ∈ tokens, a.token = t → a.expiry < now) →
      authPathRoute now (some u) t tokens = (.authErr, tokens, none)) ∧
    ((∀ a ∈ tokens, a.token ≠ t) →
      authPathRoute now (some u) t tokens = (.authErr, tokens, none)) := by
  have hiff : tokens.any (tokenValidNow now t) = true ↔
      ∃ a ∈ tokens, a.token = t ∧ now ≤ a.expiry := by
    simp [List.any_eq_true, tokenValidNow]
  refine ⟨?_, ?_, ?_⟩
  · constructor
    · intro h
      by_cases hm : tokens.any (tokenValidNow now t) = true
      · exact hiff.mp hm
      · rw [authPathRoute] at h
        simp [hm] at h
    · intro h
      rw [authPathRoute]
      simp [hiff.mpr h]
  · intro h
    have hm : tokens.any (tokenValidNow now t) = false := by
      rw [← Bool.not_eq_true, hiff]
      push_neg
      intro a ha hat
      exact h a ha hat
    rw [authPathRoute]
    simp [hm]
  · intro h
    have hm : tokens.any (tokenValidNow now t) = false := by
      rw [← Bool.not_eq_true, hiff]
      push_neg
      intro a ha hat
      exact absurd hat (h a ha)
    rw [authPathRoute]
    simp [hm]

/-- C7, witness: an expired stored token and an absent token both fail and
both leave the store unchanged; a live matching token validates. -/
theorem authPathRoute_valid_iff_witness :
    ((authPathRoute 10 (some "bob") "t1" [⟨"t1", 10⟩]).2.2 = some "bob" ↔
      ∃ a ∈ ([⟨"t1", 10⟩] : List AuthToken), a.token = "t1" ∧ 10 ≤ a.expiry) ∧
    ((∀ a ∈ ([⟨"t1", 4⟩] : List AuthToken), a.token = "t1" → a.expiry < 10) →
      authPathRoute 10 (some "bob") "t1" [⟨"t1", 4⟩] = (.authErr, [⟨"t1", 4⟩], none)) ∧
    ((∀ a ∈ ([⟨"t1", 4⟩] : List AuthToken), a.token ≠ "zz") →
      authPathRoute 10 (some "bob") "zz" [⟨"t1", 4⟩] = (.authErr, [⟨"t1", 4⟩], none)) :=
  ⟨(authPathRoute_valid_iff 10 "bob" "t1" [⟨"t1", 10⟩]).1,
   fun _ => (authPathRoute_valid_iff 10 "bob" "t1" [⟨"t1", 4⟩]).2.1 (by decide),
   fun _ => (authPathRoute_valid_iff 10 "bob" "zz" [⟨"t1", 4⟩]).2.2 (by decide)⟩

/-- C4.  With an identity established, the token method returns a fresh
token; validating that token for the same user before its sixty-second
expiry succeeds and removes every entry carrying that token value, so any
second validation of the same user-token pair fails, at any later time. -/
theorem issue_validate_single_use (u fresh : String) (now1 now2 : Nat)
    (tokens : List AuthToken) (h1 : now1 ≤ now2) (h2 : now2 ≤ now1 + 60 * 1000) :
    (ServerRouterGetUserToken (some u) now1 fresh tokens).1 = some fresh ∧
    (authPathRoute now2 (some u) fresh
        (ServerRouterGetUserToken (some u) now1 fresh tokens).2).2.2 = some u ∧
    (∀ a ∈ (authPathRoute now2 (some u) fresh
        (ServerRouterGetUserToken (some u) now1 fresh tokens).2).2.1, a.token ≠ fresh) ∧
    (∀ now3, (authPathRoute now3 (some u) fresh
        (authPathRoute now2 (some u) fresh
          (ServerRouterGetUserToken (some u) now1 fresh tokens).2).2.1).1 = .authErr) := by
  have hfresh : (⟨fresh, now1 + 60 * 1000⟩ : AuthToken) ∈
      (ServerRouterGetUserToken (some u) now1 fresh tokens).2 := by
    rw [ServerRouterGetUserToken]
    simp
  have hany : ((ServerRouterGetUserToken (some u) now1 fresh tokens).2).any
      (tokenValidNow now2 fresh) = true := by
    rw [List.any_eq_true]
    exact ⟨_, hfresh, by simp [tokenValidNow, h2]⟩
  have hsucc := (authPathRoute_purge now2 u fresh
      (ServerRouterGetUserToken (some u) now1 fresh tokens).2).1 hany
  have hnone : ∀ a ∈ (authPathRoute now2 (some u) fresh
      (ServerRouterGetUserToken (some u) now1 fresh tokens).2).2.1, a.token ≠ fresh := by
    intro a ha
    exact ((hsucc.2.2 a).mp ha).2.1
  refine ⟨rfl, hsucc.2.1, hnone, ?_⟩
  intro now3
  have hm : ((authPathRoute now2 (some u) fresh
      (ServerRouterGetUserToken (some u) now1 fresh tokens).2).2.1).any
      (tokenValidNow now3 fresh) = false := by
    rw [← Bool.not_eq_true, List.any_eq_true]
    push_neg
    intro a ha
    simp [tokenValidNow, hnone a ha]
  rw [authPathRoute]
  simp [hm]

/-- C4, witness: issue at time zero for user alice, validate at time five,
then any revalidation fails. -/
theorem issue_validate_single_use_witness :
    (0 : Nat) ≤ 5 ∧ (5 : Nat) ≤ 0 + 60 * 1000 ∧
    ((ServerRouterGetUserToken (some "alice") 0 "tok" []).1 = some "tok" ∧
     (authPathRoute 5 (some "alice") "tok"
        (ServerRouterGetUserToken (some "alice") 0 "tok" []).2).2.2 = some "alice" ∧
     (∀ a ∈ (authPathRoute 5 (some "alice") "tok"
        (ServerRouterGetUserToken (some "alice") 0 "tok" []).2).2.1, a.token ≠ "tok") ∧
     (∀ now3, (authPathRoute now3 (some "alice") "tok"
        (authPathRoute 5 (some "alice") "tok"
          (ServerRouterGetUserToken (some "alice") 0 "tok" []).2).2.1).1 = .authErr)) :=
  ⟨by decide, by decide,
   issue_validate_single_use "alice" "tok" 0 5 [] (by decide) (by decide)⟩

/-! ## Dispatcher (ServerRouter._middleware)

The middleware body reduces the registered path list into a promise chain:
entries whose compiled regular expression does not match the decoded
request path contribute nothing; a matching entry appends an invocation of
its handler followed by result interpretation.  Because a rejected promise
skips every later fulfilled continuation, the chain runs the matching
handlers strictly in order until one of them terminates it.  For a fixed
incoming request each registered entry is summarised by whether its
matcher accepts the decoded path and by the outcome its handler settles
with. -/

/-- One registered path entry, as seen by one fixed request: does the
compiled matcher accept the decoded path, and what does the handler settle
with when invoked. -/
abbrev PathEntry := Bool × Outcome

/-- Data written while the response chain runs: res.end() with no body, or
res.end(data) for a string or Buffer result. -/
inductive Body where
  | empty
  | str : String → Body
  | buf : List Nat → Body
deriving DecidableEq, Repr

/-- State of the promise chain: fulfilled, rejected with the private
responseReady sentinel, rejected with AuthenticationRequiredError, or
rejected with any other reason. -/
inductive ChainSt where
  | ok
  | ready
  | authRej
  | errRej : Nat → ChainSt
deriving DecidableEq, Repr

/-- Running state of the reduce in _middleware: the index of the next
entry, the indices of handlers invoked so far, every res.end call made so
far, and the chain state. -/
structure MwState where
  idx : Nat
  invoked : List Nat
  ends : List Body
  chain : ChainSt
deriving DecidableEq, Repr

/-- One step of the reduce in _middleware.  A non-matching entry leaves
the chain untouched.  A matching entry appends two continuations; they run
only while the chain is still fulfilled: the handler is invoked, then an
undefined result continues, a null result ends the response empty, a
string or Buffer result ends the response with that data (each of these
then throws the responseReady sentinel), a rejection with
AuthenticationRequiredError or any other reason rejects the chain. -/
def mwStep (st : MwState) (e : PathEntry) : MwState :=
  if e.1 then
    match st.chain with
    | .ok =>
      match e.2 with
      | .undef => ⟨st.idx + 1, st.invoked ++ [st.idx], st.ends, .ok⟩
      | .nullRes => ⟨st.idx + 1, st.invoked ++ [st.idx], st.ends ++ [.empty], .ready⟩
      | .strRes s => ⟨st.idx + 1, st.invoked ++ [st.idx], st.ends ++ [.str s], .ready⟩
      | .bufRes b => ⟨st.idx + 1, st.invoked ++ [st.idx], st.ends ++ [.buf b], .ready⟩
      | .authErr => ⟨st.idx + 1, st.invoked ++ [st.idx], st.ends, .authRej⟩
      | .errRes er => ⟨st.idx + 1, st.invoked ++ [st.idx], st.ends, .errRej er⟩
    | _ => ⟨st.idx + 1, st.invoked, st.ends, st.chain⟩
  else ⟨st.idx + 1, st.invoked, st.ends, st.chain⟩

/-- The chain built by the reduce, started from Promise.resolve(). -/
def mwRun (es : List PathEntry) : MwState :=
  es.foldl mwStep ⟨0, [], [], .ok⟩

/-- Observable result of one _middleware call: invoked handler indices,
res.end calls, whether the one-shot signal
_ServerRouterAuthenticationRequired was pushed onto the response, and how
next was called (none: not called; some none: next() with no error;
some (some e): next(e)). -/
structure MwResult where
  invoked : List Nat
  ends : List Body
  signalArmed : Bool
  nextCalled : Option (Option Nat)
deriving DecidableEq, Repr

/-- The final continuation of _middleware: a fulfilled chain calls next()
with no error; the responseReady sentinel is swallowed;
AuthenticationRequiredError pushes the one-shot signal and calls next()
with no error; any other reason is passed to next. -/
def middleware (es : List PathEntry) : MwResult :=
  match mwRun es with
  | ⟨_, invoked, ends, .ok⟩ => ⟨invoked, ends, false, some none⟩
  | ⟨_, invoked, ends, .ready⟩ => ⟨invoked, ends, false, none⟩
  | ⟨_, invoked, ends, .authRej⟩ => ⟨invoked, ends, true, some none⟩
  | ⟨_, invoked, ends, .errRej e⟩ => ⟨invoked, ends, false, some (some e)⟩

/-- An outcome that terminates the sequential trial: everything except an
undefined result. -/
def isTerminal : Outcome → Bool
  | .undef => false
  | _ => true

/-- Specification of the invocation order: the indices of the matching
entries, in registration order, up to and including the first entry whose
handler outcome terminates the trial. -/
def invokedSpecFrom (i : Nat) : List PathEntry → List Nat
  | [] => []
  | e :: es =>
    if e.1 then
      (if isTerminal e.2 then [i] else i :: invokedSpecFrom (i + 1) es)
    else invokedSpecFrom (i + 1) es

theorem mwStep_stuck (st : MwState) (e : PathEntry) (h : st.chain ≠ .ok) :
    mwStep st e = ⟨st.idx + 1, st.invoked, st.ends, st.chain⟩ := by
  obtain ⟨i, inv, ends, c⟩ := st
  cases c with
  | ok => exact absurd rfl h
  | ready => by_cases he : e.1 <;> simp [mwStep, he]
  | authRej => by_cases he : e.1 <;> simp [mwStep, he]
  | errRej er => by_cases he : e.1 <;> simp [mwStep, he]

theorem foldl_stuck (es : List PathEntry) (st : MwState) (h : st.chain ≠ .ok) :
    (es.foldl mwStep st).invoked = st.invoked ∧
    (es.foldl mwStep st).ends = st.ends ∧
    (es.foldl mwStep st).chain = st.chain := by
  induction es generalizing st with
  | nil => exact ⟨rfl, rfl, rfl⟩
  | cons e es ih =>
    rw [List.foldl_cons, mwStep_stuck st e h]
    exact ih ⟨st.idx + 1, st.invoked, st.ends, st.chain⟩ h

theorem foldl_invoked_ok (es : List PathEntry) (st : MwState) (h : st.chain = .ok) :
    (es.foldl mwStep st).invoked = st.invoked ++ invokedSpecFrom st.idx es := by
  induction es generalizing st with
  | nil => simp [invokedSpecFrom]
  | cons e es ih =>
    rw [List.foldl_cons, invokedSpecFrom]
    by_cases he : e.1
    · obtain ⟨i, inv, ends, _⟩ := st
      cases h
      match ho : e.2 with
      | .undef =>
        rw [show mwStep ⟨i, inv, ends, .ok⟩ e = ⟨i + 1, inv ++ [i], ends, .ok⟩ by
          rw [mwStep]; simp [he, ho]]
        rw [ih _ rfl]
        simp [he, ho, isTerminal]
      | .nullRes =>
        rw [show mwStep ⟨i, inv, ends, .ok⟩ e = ⟨i + 1, inv ++ [i], ends ++ [.empty], .ready⟩ by
          rw [mwStep]; simp [he, ho]]
        rw [(foldl_stuck es _ (by simp)).1]
        simp [he, ho, isTerminal]
      | .strRes s =>
        rw [show mwStep ⟨i, inv, ends, .ok⟩ e = ⟨i + 1, inv ++ [i], ends ++ [.str s], .ready⟩ by
          rw [mwStep]; simp [he, ho]]
        rw [(foldl_stuck es _ (by simp)).1]
        simp [he, ho, isTerminal]
      | .bufRes b =>
        rw [show mwStep ⟨i, inv, ends, .ok⟩ e = ⟨i + 1, inv ++ [i], ends ++ [.buf b], .ready⟩ by
          rw [mwStep]; simp [he, ho]]
        rw [(foldl_stuck es _ (by simp)).1]
        simp [he, ho, isTerminal]
      | .authErr =>
        rw [show mwStep ⟨i, inv, ends, .ok⟩ e = ⟨i + 1, inv ++ [i], ends, .authRej⟩ by
          rw [mwStep]; simp [he, ho]]
        rw [(foldl_stuck es _ (by simp)).1]
        simp [he, ho, isTerminal]
      | .errRes er =>
        rw [show mwStep ⟨i, inv, ends, .ok⟩ e = ⟨i + 1, inv ++ [i], ends, .errRej er⟩ by
          rw [mwStep]; simp [he, ho]]
        rw [(foldl_stuck es _ (by simp)).1]
        simp [he, ho, isTerminal]
    · rw [show mwStep st e = ⟨st.idx + 1, st.invoked, st.ends, st.chain⟩ by
        rw [mwStep]; simp [he]]
      rw [ih ⟨st.idx + 1, st.invoked, st.ends, st.chain⟩ h]
      simp [he]

theorem invokedSpecFrom_ge (i : Nat) (es : List PathEntry) :
    ∀ j ∈ invokedSpecFrom i es, i ≤ j := by
  induction es generalizing i with
  | nil => intro j hj; exact absurd hj (List.not_mem_nil _)
  | cons e es ih =>
    intro j hj
    rw [invokedSpecFrom] at hj
    by_cases he : e.1
    · simp only [he, if_true] at hj
      by_cases ht : isTerminal e.2
      · simp [ht] at hj
        exact hj ▸ Nat.le_refl j
      · simp [ht] at hj
        rcases hj with hj | hj
        · exact hj ▸ Nat.le_refl j
        · exact Nat.le_of_succ_le (ih (i + 1) j hj)
    · simp only [he, if_false] at hj
      exact Nat.le_of_succ_le (ih (i + 1) j hj)

theorem invokedSpecFrom_sorted (i : Nat) (es : List PathEntry) :
    List.Pairwise (· < ·) (invokedSpecFrom i es) := by
  induction es generalizing i with
  | nil => exact List.Pairwise.nil
  | cons e es ih =>
    rw [invokedSpecFrom]
    by_cases he : e.1
    · by_cases ht : isTerminal e.2
      · simp [he, ht]
      · simp only [he, ht, if_true, if_false]
        exact List.pairwise_cons.mpr
          ⟨fun j hj => Nat.lt_of_succ_le (invokedSpecFrom_ge (i + 1) es j hj), ih (i + 1)⟩
    · simp only [he, if_false]
      exact ih (i + 1)

theorem foldl_ends_ok (es : List PathEntry) (st : MwState) (h : st.chain = .ok) :
    (es.foldl mwStep st).ends.length ≤ st.ends.length + 1 := by
  induction es generalizing st with
  | nil => exact Nat.le_succ _
  | cons e es ih =>
    rw [List.foldl_cons]
    by_cases he : e.1
    · obtain ⟨i, inv, ends, _⟩ := st
      cases h
      match ho : e.2 with
      | .undef =>
        rw [show mwStep ⟨i, inv, ends, .ok⟩ e = ⟨i + 1, inv ++ [i], ends, .ok⟩ by
          rw [mwStep]; simp [he, ho]]
        exact ih _ rfl
      | .nullRes =>
        rw [show mwStep ⟨i, inv, ends, .ok⟩ e = ⟨i + 1, inv ++ [i], ends ++ [.empty], .ready⟩ by
          rw [mwStep]; simp [he, ho]]
        rw [(foldl_stuck es _ (by simp)).2.1]
        simp
      | .strRes s =>
        rw [show mwStep ⟨i, inv, ends, .ok⟩ e = ⟨i + 1, inv ++ [i], ends ++ [.str s], .ready⟩ by
          rw [mwStep]; simp [he, ho]]
        rw [(foldl_stuck es _ (by simp)).2.1]
        simp
      | .bufRes b =>
        rw [show mwStep ⟨i, inv, ends, .ok⟩ e = ⟨i + 1, inv ++ [i], ends ++ [.buf b], .ready⟩ by
          rw [mwStep]; simp [he, ho]]
        rw [(foldl_stuck es _ (by simp)).2.1]
        simp
      | .authErr =>
        rw [show mwStep ⟨i, inv, ends, .ok⟩ e = ⟨i + 1, inv ++ [i], ends, .authRej⟩ by
          rw [mwStep]; simp [he, ho]]
        rw [(foldl_stuck es _ (by simp)).2.1]
        exact Nat.le_succ _
      | .errRes er =>
        rw [show mwStep ⟨i, inv, ends, .ok⟩ e = ⟨i + 1, inv ++ [i], ends, .errRej er⟩ by
          rw [mwStep]; simp [he, ho]]
        rw [(foldl_stuck es _ (by simp)).2.1]
        exact Nat.le_succ _
    · rw [show mwStep st e = ⟨st.idx + 1, st.invoked, st.ends, st.chain⟩ by
        rw [mwStep]; simp [he]]
      exact ih ⟨st.idx + 1, st.invoked, st.ends, st.chain⟩ h

theorem middleware_invoked (es : List PathEntry) :
    (middleware es).invoked = (mwRun es).invoked := by
  rw [middleware]
  obtain ⟨i, inv, ends, c⟩ := mwRun es
  cases c <;> rfl

theorem middleware_ends (es : List PathEntry) :
    (middleware es).ends = (mwRun es).ends := by
  rw [middleware]
  obtain ⟨i, inv, ends, c⟩ := mwRun es
  cases c <;> rfl

/-- C3.  Dispatch invokes exactly the matching entries, in registration
order, up to and including the first whose handler terminates the trial
(so a later entry runs only after every earlier matching handler settled
with undefined, and non-matching entries are skipped); the invoked indices
are strictly increasing; and res.end is reached at most once, so at most
one handler produces the final response. -/
theorem middleware_sequential (es : List PathEntry) :
    (middleware es).invoked = invokedSpecFrom 0 es ∧
    List.Pairwise (· < ·) ((middleware es).invoked) ∧
    (middleware es).ends.length ≤ 1 := by
  have h1 : (middleware es).invoked = invokedSpecFrom 0 es := by
    rw [middleware_invoked, mwRun, foldl_invoked_ok es ⟨0, [], [], .ok⟩ rfl]
    rfl
  refine ⟨h1, ?_, ?_⟩
  · rw [h1]; exact invokedSpecFrom_sorted 0 es
  · rw [middleware_ends, mwRun]
    exact foldl_ends_ok es ⟨0, [], [], .ok⟩ rfl

theorem mwStep_idx (st : MwState) (e : PathEntry) : (mwStep st e).idx = st.idx + 1 := by
  obtain ⟨i, inv, ends, c⟩ := st
  obtain ⟨m, o⟩ := e
  cases m <;> cases c <;> cases o <;> rfl

theorem foldl_idx (es : List PathEntry) (st : MwState) :
    (es.foldl mwStep st).idx = st.idx + es.length := by
  induction es generalizing st with
  | nil => rfl
  | cons e es ih =>
    rw [List.foldl_cons, ih, mwStep_idx, List.length_cons]
    omega

theorem mwStep_ok_undef (st : MwState) (hc : st.chain = .ok) :
    mwStep st (true, .undef) = ⟨st.idx + 1, st.invoked ++ [st.idx], st.ends, .ok⟩ := by
  obtain ⟨i, inv, ends, c⟩ := st
  cases hc
  rfl

theorem mwStep_ok_null (st : MwState) (hc : st.chain = .ok) :
    mwStep st (true, .nullRes)
      = ⟨st.idx + 1, st.invoked ++ [st.idx], st.ends ++ [.empty], .ready⟩ := by
  obtain ⟨i, inv, ends, c⟩ := st
  cases hc
  rfl

theorem mwStep_ok_str (st : MwState) (s : String) (hc : st.chain = .ok) :
    mwStep st (true, .strRes s)
      = ⟨st.idx + 1, st.invoked ++ [st.idx], st.ends ++ [.str s], .ready⟩ := by
  obtain ⟨i, inv, ends, c⟩ := st
  cases hc
  rfl

theorem mwStep_ok_buf (st : MwState) (b : List Nat) (hc : st.chain = .ok) :
    mwStep st (true, .bufRes b)
      = ⟨st.idx + 1, st.invoked ++ [st.idx], st.ends ++ [.buf b], .ready⟩ := by
  obtain ⟨i, inv, ends, c⟩ := st
  cases hc
  rfl

theorem mwStep_ok_auth (st : MwState) (hc : st.chain = .ok) :
    mwStep st (true, .authErr) = ⟨st.idx + 1, st.invoked ++ [st.idx], st.ends, .authRej⟩ := by
  obtain ⟨i, inv, ends, c⟩ := st
  cases hc
  rfl

/-- Projection of a middleware step onto the response data and chain
state, which do not depend on the entry index or the invocation log. -/
def ecStep (p : List Body × ChainSt) (e : PathEntry) : List Body × ChainSt :=
  if e.1 then
    match p.2 with
    | .ok =>
      match e.2 with
      | .undef => p
      | .nullRes => (p.1 ++ [.empty], .ready)
      | .strRes s => (p.1 ++ [.str s], .ready)
      | .bufRes b => (p.1 ++ [.buf b], .ready)
      | .authErr => (p.1, .authRej)
      | .errRes er => (p.1, .errRej er)
    | _ => p
  else p

theorem mwStep_ec (st : MwState) (e : PathEntry) :
    ((mwStep st e).ends, (mwStep st e).chain) = ecStep (st.ends, st.chain) e := by
  obtain ⟨i, inv, ends, c⟩ := st
  obtain ⟨m, o⟩ := e
  cases m <;> cases c <;> cases o <;> rfl

theorem foldl_ec (es : List PathEntry) (st : MwState) :
    ((es.foldl mwStep st).ends, (es.foldl mwStep st).chain)
      = es.foldl ecStep (st.ends, st.chain) := by
  induction es generalizing st with
  | nil => rfl
  | cons e es ih =>
    rw [List.foldl_cons, List.foldl_cons, ih, mwStep_ec]

theorem ecStep_undef (p : List Body × ChainSt) : ecStep p (true, .undef) = p := by
  obtain ⟨ends, c⟩ := p
  cases c <;> rfl

/-- While the chain is still fulfilled nothing has been written to the
response. -/
theorem ec_ok_ends_nil (es : List PathEntry) (p : List Body × ChainSt)
    (h : p.2 = .ok → p.1 = []) :
    (es.foldl ecStep p).2 = .ok → (es.foldl ecStep p).1 = [] := by
  induction es generalizing p with
  | nil => exact h
  | cons e es ih =>
    rw [List.foldl_cons]
    apply ih
    obtain ⟨ends, c⟩ := p
    obtain ⟨m, o⟩ := e
    cases m
    · exact h
    · cases c with
      | ok =>
        cases o with
        | undef => exact h
        | nullRes => intro hq; exact absurd hq (by simp [ecStep])
        | strRes s => intro hq; exact absurd hq (by simp [ecStep])
        | bufRes b => intro hq; exact absurd hq (by simp [ecStep])
        | authErr => intro hq; exact absurd hq (by simp [ecStep])
        | errRes er => intro hq; exact absurd hq (by simp [ecStep])
      | ready => exact h
      | authRej => exact h
      | errRej er => exact h

theorem mwRun_ok_ends_nil (es : List PathEntry) (h : (mwRun es).chain = .ok) :
    (mwRun es).ends = [] := by
  have hec := foldl_ec es ⟨0, [], [], .ok⟩
  have h2 := ec_ok_ends_nil es ([], .ok) (fun _ => rfl)
  rw [← hec] at h2
  exact h2 h

/-- Outcome of the final continuation as a function of the chain state:
whether the one-shot signal is pushed. -/
def finalizeSignal : ChainSt → Bool
  | .authRej => true
  | _ => false

/-- Outcome of the final continuation as a function of the chain state:
how next is called. -/
def finalizeNext : ChainSt → Option (Option Nat)
  | .ok => some none
  | .ready => none
  | .authRej => some none
  | .errRej e => some (some e)

theorem middleware_eq (es : List PathEntry) :
    middleware es = ⟨(mwRun es).invoked, (mwRun es).ends,
      finalizeSignal (mwRun es).chain, finalizeNext (mwRun es).chain⟩ := by
  rw [middleware]
  obtain ⟨i, inv, ends, c⟩ := mwRun es
  cases c <;> rfl

/-- C5.  Interpretation of a matching entry's handler result during
dispatch.  An undefined result is invisible to the response, the signal
and the next callback (dispatch behaves as if the entry were absent), and
when it is reached it is invoked and the trial continues into the
remaining entries.  When the trial reaches a matching entry that resolves
null, the response is ended exactly once with an empty body and no later
entry is invoked; a string resp. byte-buffer result likewise ends the
response exactly once with that data and stops the trial. -/
theorem middleware_result_interp (pre post : List PathEntry) (s : String) (b : List Nat) :
    ((middleware (pre ++ (true, Outcome.undef) :: post)).ends
        = (middleware (pre ++ post)).ends ∧
     (middleware (pre ++ (true, Outcome.undef) :: post)).signalArmed
        = (middleware (pre ++ post)).signalArmed ∧
     (middleware (pre ++ (true, Outcome.undef) :: post)).nextCalled
        = (middleware (pre ++ post)).nextCalled) ∧
    ((mwRun pre).chain = .ok →
      (middleware (pre ++ (true, Outcome.undef) :: post)).invoked
        = (mwRun pre).invoked ++ pre.length :: invokedSpecFrom (pre.length + 1) post) ∧
    ((mwRun pre).chain = .ok →
      middleware (pre ++ (true, Outcome.nullRes) :: post)
        = ⟨(mwRun pre).invoked ++ [pre.length], [Body.empty], false, none⟩) ∧
    ((mwRun pre).chain = .ok →
      middleware (pre ++ (true, Outcome.strRes s) :: post)
        = ⟨(mwRun pre).invoked ++ [pre.length], [Body.str s], false, none⟩) ∧
    ((mwRun pre).chain = .ok →
      middleware (pre ++ (true, Outcome.bufRes b) :: post)
        = ⟨(mwRun pre).invoked ++ [pre.length], [Body.buf b], false, none⟩) := by
  have hidx : (mwRun pre).idx = pre.length := by
    rw [mwRun, foldl_idx]
    simp
  refine ⟨?_, ?_, ?_, ?_, ?_⟩
  · have hec : ((mwRun (pre ++ (true, Outcome.undef) :: post)).ends,
        (mwRun (pre ++ (true, Outcome.undef) :: post)).chain)
        = ((mwRun (pre ++ post)).ends, (mwRun (pre ++ post)).chain) := by
      rw [mwRun, mwRun, foldl_ec, foldl_ec, List.foldl_append, List.foldl_append,
        List.foldl_cons, ecStep_undef]
    have he : (mwRun (pre ++ (true, Outcome.undef) :: post)).ends
        = (mwRun (pre ++ post)).ends := congrArg Prod.fst hec
    have hc : (mwRun (pre ++ (true, Outcome.undef) :: post)).chain
        = (mwRun (pre ++ post)).chain := congrArg Prod.snd hec
    rw [middleware_eq, middleware_eq, he, hc]
    exact ⟨rfl, rfl, rfl⟩
  · intro h
    rw [middleware_invoked, mwRun, List.foldl_append, List.foldl_cons]
    rw [show (pre.foldl mwStep ⟨0, [], [], .ok⟩) = mwRun pre from rfl]
    rw [mwStep_ok_undef (mwRun pre) h, hidx]
    rw [foldl_invoked_ok post _ rfl]
    simp
  · intro h
    rw [middleware_eq, mwRun, List.foldl_append, List.foldl_cons]
    rw [show (pre.foldl mwStep ⟨0, [], [], .ok⟩) = mwRun pre from rfl]
    rw [mwStep_ok_null (mwRun pre) h, hidx, mwRun_ok_ends_nil pre h]
    have hstuck := foldl_stuck post
      ⟨pre.length + 1, (mwRun pre).invoked ++ [pre.length], [] ++ [Body.empty], .ready⟩ (by simp)
    rw [hstuck.1, hstuck.2.1, hstuck.2.2]
    rfl
  · intro h
    rw [middleware_eq, mwRun, List.foldl_append, List.foldl_cons]
    rw [show (pre.foldl mwStep ⟨0, [], [], .ok⟩) = mwRun pre from rfl]
    rw [mwStep_ok_str (mwRun pre) s h, hidx, mwRun_ok_ends_nil pre h]
    have hstuck := foldl_stuck post
      ⟨pre.length + 1, (mwRun pre).invoked ++ [pre.length], [] ++ [Body.str s], .ready⟩ (by simp)
    rw [hstuck.1, hstuck.2.1, hstuck.2.2]
    rfl
  · intro h
    rw [middleware_eq, mwRun, List.foldl_append, List.foldl_cons]
    rw [show (pre.foldl mwStep ⟨0, [], [], .ok⟩) = mwRun pre from rfl]
    rw [mwStep_ok_buf (mwRun pre) b h, hidx, mwRun_ok_ends_nil pre h]
    have hstuck := foldl_stuck post
      ⟨pre.length + 1, (mwRun pre).invoked ++ [pre.length], [] ++ [Body.buf b], .ready⟩ (by simp)
    rw [hstuck.1, hstuck.2.1, hstuck.2.2]
    rfl

/-- C5, witness at a concrete entry list: one matching undefined entry
before the probed entry, one matching entry after it. -/
theorem middleware_result_interp_witness :
    (mwRun [((true : Bool), Outcome.undef)]).chain = .ok ∧
    (middleware ([((true : Bool), Outcome.undef)] ++ (true, Outcome.undef)
        :: [((true : Bool), Outcome.nullRes)])).invoked = [0, 1, 2] ∧
    middleware ([((true : Bool), Outcome.undef)] ++ (true, Outcome.nullRes)
        :: [((true : Bool), Outcome.strRes "late")])
      = ⟨[0, 1], [Body.empty], false, none⟩ ∧
    middleware ([((true : Bool), Outcome.undef)] ++ (true, Outcome.strRes "x")
        :: [((true : Bool), Outcome.nullRes)])
      = ⟨[0, 1], [Body.str "x"], false, none⟩ ∧
    middleware ([((true : Bool), Outcome.undef)] ++ (true, Outcome.bufRes [7])
        :: [((true : Bool), Outcome.nullRes)])
      = ⟨[0, 1], [Body.buf [7]], false, none⟩ := by
  refine ⟨by decide, ?_, ?_, ?_, ?_⟩
  · have h := (middleware_result_interp [((true : Bool), Outcome.undef)]
      [((true : Bool), Outcome.nullRes)] "x" [7]).2.1 (by decide)
    rw [h]
    decide
  · have h := (middleware_result_interp [((true : Bool), Outcome.undef)]
      [((true : Bool), Outcome.strRes "late")] "x" [7]).2.2.1 (by decide)
    rw [h]
    decide
  · have h := (middleware_result_interp [((true : Bool), Outcome.undef)]
      [((true : Bool), Outcome.nullRes)] "x" [7]).2.2.2.1 (by decide)
    rw [h]
    decide
  · have h := (middleware_result_interp [((true : Bool), Outcome.undef)]
      [((true : Bool), Outcome.nullRes)] "x" [7]).2.2.2.2 (by decide)
    rw [h]
    decide

/-- C6.  When the sequential trial reaches a matching entry whose handler
rejects with AuthenticationRequiredError, no later entry is invoked, the
response is not ended by the dispatcher, the one-shot signal
_ServerRouterAuthenticationRequired is pushed onto the response, and the
middleware calls next() with no error, so the failure is never handed to
the caller as a fatal error. -/
theorem middleware_auth_required (pre post : List PathEntry)
    (h : (mwRun pre).chain = .ok) :
    middleware (pre ++ (true, Outcome.authErr) :: post)
      = ⟨(mwRun pre).invoked ++ [pre.length], [], true, some none⟩ := by
  have hidx : (mwRun pre).idx = pre.length := by
    rw [mwRun, foldl_idx]
    simp
  rw [middleware_eq, mwRun, List.foldl_append, List.foldl_cons]
  rw [show (pre.foldl mwStep ⟨0, [], [], .ok⟩) = mwRun pre from rfl]
  rw [mwStep_ok_auth (mwRun pre) h, hidx, mwRun_ok_ends_nil pre h]
  have hstuck := foldl_stuck post
    ⟨pre.length + 1, (mwRun pre).invoked ++ [pre.length], ([] : List Body), .authRej⟩ (by simp)
  rw [hstuck.1, hstuck.2.1, hstuck.2.2]
  rfl

/-- C6, witness: an auth-required rejection in the middle of the entry
list arms the signal, skips the rest, and calls next with no error. -/
theorem middleware_auth_required_witness :
    (mwRun [((true : Bool), Outcome.undef), ((false : Bool), Outcome.nullRes)]).chain = .ok ∧
    middleware ([((true : Bool), Outcome.undef), ((false : Bool), Outcome.nullRes)]
        ++ (true, Outcome.authErr) :: [((true : Bool), Outcome.strRes "never")])
      = ⟨[0, 2], [], true, some none⟩ := by
  refine ⟨by decide, ?_⟩
  have h := middleware_auth_required
    [((true : Bool), Outcome.undef), ((false : Bool), Outcome.nullRes)]
    [((true : Bool), Outcome.strRes "never")] (by decide)
  rw [h]
  decide

/-! ## The catch-all named-route path (C8)

The handler of the default route path resolves the dotted name through
getFieldValue over the routes table and calls the resolved value.  A
handler leaf settles with its own outcome; a missing name resolves to a
falsy value and the handler returns undefined; a name resolving to an
inner namespace object is truthy, so the source calls route.apply on a
plain object, which raises a TypeError that rejects the handler promise
with an ordinary (non-auth) reason. -/

/-- Settled outcome of the default route path handler for a given routes
table and dotted name, when the route arguments parsed successfully.  The
payload 0 of the error case stands for the TypeError raised by calling
apply on a non-function. -/
def defaultRouteOutcome (rs : Routes Outcome) (name : String) : Outcome :=
  match getFieldValue rs name with
  | none => .undef
  | some (.leaf o) => o
  | some (.node _) => .errRes 0

/-- C8, counterexample.  The dotted name a does not resolve to a
registered handler in the table with the single leaf a.b, yet dispatching
it through the catch-all entry is fatal, not a pass-through: the lookup
yields the inner namespace object, the handler calls apply on it, and the
resulting TypeError is passed to next as an error. -/
theorem default_route_namespace_cex :
    defaultRouteOutcome [("a", .node [("b", .leaf .undef)])] "a" = .errRes 0 ∧
    (middleware [((true : Bool), Outcome.undef),
      ((true : Bool), defaultRouteOutcome [("a", .node [("b", .leaf .undef)])] "a")]).nextCalled
      = some (some 0) ∧
    some (some 0) ≠ (some none : Option (Option Nat)) := by
  refine ⟨rfl, ?_, by decide⟩
  rw [show defaultRouteOutcome [("a", RouteNode.node [("b", RouteNode.leaf Outcome.undef)])] "a"
      = .errRes 0 from rfl]
  decide

/-- C8, amended.  For every dotted name whose walk through the routes
table fails at some segment, the catch-all handler returns undefined and a
request dispatched through the two built-in entries (the declining auth
entry and the catch-all) passes through: both handlers are tried, nothing
is written, no signal is armed, and next() is called with no error.  A
name resolving to an inner namespace node is excluded: there the source
raises a TypeError instead. -/
theorem default_route_passthrough (rs : Routes Outcome) (name : String)
    (h : getFieldValue rs name = none) :
    defaultRouteOutcome rs name = .undef ∧
    middleware [((true : Bool), Outcome.undef),
        ((true : Bool), defaultRouteOutcome rs name)]
      = ⟨[0, 1], [], false, some none⟩ := by
  have h1 : defaultRouteOutcome rs name = .undef := by
    rw [defaultRouteOutcome, h]
  refine ⟨h1, ?_⟩
  rw [h1]
  decide

/-- C8, witness: the name x.y is missing from a table holding only a.b,
and dispatch through the built-in entries passes through. -/
theorem default_route_passthrough_witness :
    getFieldValue ([("a", .node [("b", .leaf .undef)])] : Routes Outcome) "x.y" = none ∧
    (defaultRouteOutcome ([("a", .node [("b", .leaf .undef)])] : Routes Outcome) "x.y"
        = .undef ∧
      middleware [((true : Bool), Outcome.undef),
          ((true : Bool), defaultRouteOutcome
            ([("a", .node [("b", .leaf .undef)])] : Routes Outcome) "x.y")]
        = ⟨[0, 1], [], false, some none⟩) :=
  ⟨rfl, default_route_passthrough [("a", .node [("b", .leaf .undef)])] "x.y" rfl⟩

/-! ## Client redirect helper (ServerRouterClient.redirectTo)

The client method reads the local identity, and either navigates directly
(no token RPC at all) or performs one _ServerRouterGetUserToken RPC,
merges the reserved parameters onto the parsed query string of the target,
and navigates.  The target URL is represented by its base and its parsed
query object; the ambient identity and the settled RPC result are explicit
arguments; a rejected RPC makes the whole call reject with that reason. -/

/-- A target URL: everything outside the query string, plus the parsed
query object. -/
structure Href where
  base : String
  query : List (String × String)
deriving DecidableEq, Repr

/-- How a redirectTo call resolved: a navigation performed without any
token RPC, or a navigation performed after exactly one token RPC. -/
inductive NavResult where
  | direct : Href → NavResult
  | authNav : Href → NavResult
deriving DecidableEq, Repr

/-- Source method redirectTo(href).  Without a local identity it assigns
window.location.href = href at once; otherwise it awaits the token RPC
(a rejection propagates out of the async method), parses the query string
of href, assigns the reserved parameters _u and _t onto it with
Object.assign, and navigates to the rebuilt URL. -/
def redirectTo (userId : Option String) (rpc : Except Nat String) (href : Href) :
    Except Nat NavResult :=
  match userId with
  | none => .ok (.direct href)
  | some u =>
    match rpc with
    | .error e => .error e
    | .ok t => .ok (.authNav (Href.mk href.base (objSet (objSet href.query "_u" u) "_t" t)))

/-- C9, counterexample.  A pre-existing query parameter named _u is not
preserved: Object.assign overwrites it with the identity, so the claim
that every pre-existing query parameter is preserved fails on URLs that
already carry a reserved parameter. -/
theorem redirectTo_reserved_cex :
    redirectTo (some "alice") (.ok "tok") (Href.mk "/page" [("_u", "intruder")])
      = .ok (.authNav (Href.mk "/page" [("_u", "alice"), ("_t", "tok")])) ∧
    (("_u", "intruder") : String × String) ∉
      ([("_u", "alice"), ("_t", "tok")] : List (String × String)) :=
  ⟨rfl, by decide⟩

/-- C9, amended.  Without a local identity the call navigates directly to
href and performs no token RPC; with an identity and a failed RPC the call
rejects with exactly that error; with an identity and a successful RPC it
performs the one RPC and navigates to href with _u set to the identity and
_t set to the token, preserving every pre-existing query parameter whose
name is not one of the reserved names _u and _t (those are overwritten). -/
theorem redirectTo_spec (userId : Option String) (rpc : Except Nat String) (href : Href) :
    (userId = none → redirectTo userId rpc href = .ok (.direct href)) ∧
    (∀ u e, userId = some u → rpc = .error e → redirectTo userId rpc href = .error e) ∧
    (∀ u t, userId = some u → rpc = .ok t →
      redirectTo userId rpc href
        = .ok (.authNav (Href.mk href.base (objSet (objSet href.query "_u" u) "_t" t))) ∧
      objGet (objSet (objSet href.query "_u" u) "_t" t) "_u" = some u ∧
      objGet (objSet (objSet href.query "_u" u) "_t" t) "_t" = some t ∧
      ∀ k v, (k, v) ∈ href.query → k ≠ "_u" → k ≠ "_t" →
        (k, v) ∈ objSet (objSet href.query "_u" u) "_t" t) := by
  refine ⟨?_, ?_, ?_⟩
  · intro h
    rw [h]
    rfl
  · intro u e hu he
    rw [hu, he]
    rfl
  · intro u t hu ht
    rw [hu, ht]
    refine ⟨rfl, ?_, objGet_objSet_self _ _ _, ?_⟩
    · rw [objGet_objSet_ne _ _ _ _ (by decide : ("_u" : String) ≠ "_t")]
      exact objGet_objSet_self _ _ _
    · intro k v hm hk1 hk2
      exact mem_objSet_of_ne _ _ _ _ _ (mem_objSet_of_ne _ _ _ _ _ hm hk1) hk2

/-- C9, witness at a concrete identity, token and target URL carrying an
ordinary query parameter. -/
theorem redirectTo_spec_witness :
    ((none : Option String) = none →
      redirectTo none (.ok "tok") (Href.mk "/p" [("a", "1")])
        = .ok (.direct (Href.mk "/p" [("a", "1")]))) ∧
    ((some "alice" : Option String) = some "alice" →
      (.error 3 : Except Nat String) = .error 3 →
      redirectTo (some "alice") (.error 3) (Href.mk "/p" [("a", "1")]) = .error 3) ∧
    ((some "alice" : Option String) = some "alice" →
      (.ok "tok" : Except Nat String) = .ok "tok" →
      (redirectTo (some "alice") (.ok "tok") (Href.mk "/p" [("a", "1")])
        = .ok (.authNav (Href.mk "/p" (objSet (objSet [("a", "1")] "_u" "alice") "_t" "tok"))) ∧
      objGet (objSet (objSet [("a", "1")] "_u" "alice") "_t" "tok") "_u" = some "alice" ∧
      objGet (objSet (objSet [("a", "1")] "_u" "alice") "_t" "tok") "_t" = some "tok" ∧
      ∀ k v, (k, v) ∈ ([("a", "1")] : List (String × String)) → k ≠ "_u" → k ≠ "_t" →
        (k, v) ∈ objSet (objSet [("a", "1")] "_u" "alice") "_t" "tok")) :=
  ⟨fun _ => (redirectTo_spec none (.ok "tok") (Href.mk "/p" [("a", "1")])).1 rfl,
   fun _ _ => (redirectTo_spec (some "alice") (.error 3) (Href.mk "/p" [("a", "1")])).2.1
     "alice" 3 rfl rfl,
   fun _ _ => (redirectTo_spec (some "alice") (.ok "tok") (Href.mk "/p" [("a", "1")])).2.2
     "alice" "tok" rfl rfl⟩

/-! ## Client route mirror and generated handler trees (C10)

The client constructor mirrors the server route tree with arbitrary leaf
placeholders and derives from it, via mapValuesDeep, one tree of URL
builders and one tree of redirect functions.  Route arguments are embedded
as EJSON values; getRouteUrl serializes each element of its variadic
argument list into one path segment of the compiled default route path
template /r/:name/:args*, represented here as the ordered list of its URL
path segments. -/

mutual
/-- An EJSON value carried as a route argument. -/
inductive EJsonVal where
  | num : Int → EJsonVal
  | str : String → EJsonVal
  | arr : EJsonArr → EJsonVal

/-- A JavaScript array of EJSON values (also the variadic argument list of
a route call). -/
inductive EJsonArr where
  | nil : EJsonArr
  | cons : EJsonVal → EJsonArr → EJsonArr
end

mutual
/-- EJSON.stringify on one value. -/
def ejsonStringify : EJsonVal → String
  | .num n => toString n
  | .str s => "\x22" ++ s ++ "\x22"
  | .arr xs => "[" ++ ejsonStringifyArr xs ++ "]"

/-- Comma-joined serialization of the elements of an array. -/
def ejsonStringifyArr : EJsonArr → String
  | .nil => ""
  | .cons x .nil => ejsonStringify x
  | .cons x (.cons y ys) => ejsonStringify x ++ "," ++ ejsonStringifyArr (.cons y ys)
end

/-- The call args.map(EJSON.stringify) on the variadic argument list. -/
def stringifyEach : EJsonArr → List String
  | .nil => []
  | .cons x xs => ejsonStringify x :: stringifyEach xs

/-- Length of a variadic argument list. -/
def arrLength : EJsonArr → Nat
  | .nil => 0
  | .cons _ xs => arrLength xs + 1

theorem stringifyEach_length : ∀ as : EJsonArr, (stringifyEach as).length = arrLength as
  | .nil => rfl
  | .cons x xs => by
    rw [stringifyEach, arrLength, List.length_cons, stringifyEach_length xs]

/-- The reverse builder compiled from the default route path template
/r/:name/:args*, applied to a route name and already-serialized argument
segments; a URL is represented by its ordered list of path segments. -/
def compiledDefaultRoutePath (name : String) (argSegments : List String) : List String :=
  "r" :: name :: argSegments

/-- Source method getRouteUrl(name, ...args): serialize every element of
the variadic argument list into its own path segment. -/
def getRouteUrl (name : String) (args : EJsonArr) : List String :=
  compiledDefaultRoutePath name (stringifyEach args)

/-- The URL that redirectToRoute(name, ...args) navigates to: it spreads
its variadic arguments into getRouteUrl. -/
def redirectToRouteUrl (name : String) (args : EJsonArr) : List String :=
  getRouteUrl name args

/-- The argument segments of a built URL: everything after the literal
segment r and the name segment. -/
def argSegs (u : List String) : List String :=
  u.drop 2

/-- What a generated leaf function does when applied: either return a URL
(url tree) or invoke redirectTo on a URL (redirect tree). -/
inductive ClientAction where
  | urlOf : List String → ClientAction
  | redirectCall : List String → ClientAction

mutual
/-- The client route mirror: leaves are arbitrary non-object placeholder
values, inner nodes are plain objects. -/
inductive Mirror where
  | leaf : Mirror
  | node : MirrorObj → Mirror

/-- A plain object of mirror entries in insertion order. -/
inductive MirrorObj where
  | nil : MirrorObj
  | cons : String → Mirror → MirrorObj → MirrorObj
end

mutual
/-- A generated handler tree: leaves are functions from a variadic
argument list to a client action. -/
inductive HTree where
  | leaf : (EJsonArr → ClientAction) → HTree
  | node : HObj → HTree

/-- A plain object of generated handler entries. -/
inductive HObj where
  | nil : HObj
  | cons : String → HTree → HObj → HObj
end

/-- The mapper passed to mapValuesDeep by _createRouteHandlers, closed
over the redirect option and applied at the leaf with dotted name deepKey:
build the URL for the route by passing the whole argument array as one
single argument to getRouteUrl, then either return it or redirect to it. -/
def leafFun (redirect : Bool) (deepKey : String) : EJsonArr → ClientAction :=
  fun as =>
    let u := getRouteUrl deepKey (.cons (.arr as) .nil)
    if redirect then .redirectCall u else .urlOf u

mutual
/-- mapValuesDeep on one value: an object recurses with the extended key
prefix, any other value is replaced by the mapper applied at its dotted
name. -/
def mapVal (redirect : Bool) (deepKey : String) : Mirror → HTree
  | .leaf => .leaf (leafFun redirect deepKey)
  | .node m => .node (mapObj redirect (deepKey ++ ".") m)

/-- mapValuesDeep on the entries of an object: each key is kept and its
value mapped at dotted name keyPre concatenated with the key. -/
def mapObj (redirect : Bool) (keyPre : String) : MirrorObj → HObj
  | .nil => .nil
  | .cons k v rest => .cons k (mapVal redirect (keyPre ++ k) v) (mapObj redirect keyPre rest)
end

/-- Source method _createRouteHandlers: map the mirror with an empty key
prefix. -/
def createRouteHandlers (redirect : Bool) (routes : MirrorObj) : HObj :=
  mapObj redirect "" routes

/-- Find an entry of a mirror object by key. -/
def mObjFind : MirrorObj → String → Option Mirror
  | .nil, _ => none
  | .cons k v rest, s => if k = s then some v else mObjFind rest s

/-- Walk a mirror along a list of name segments. -/
def mLookup : Mirror → List String → Option Mirror
  | m, [] => some m
  | .leaf, _ :: _ => none
  | .node obj, s :: p =>
    match mObjFind obj s with
    | none => none
    | some v => mLookup v p

/-- Walk a mirror object along a nonempty list of name segments. -/
def mObjLookup (obj : MirrorObj) : List String → Option Mirror
  | [] => none
  | s :: p =>
    match mObjFind obj s with
    | none => none
    | some v => mLookup v p

/-- Find an entry of a generated handler object by key. -/
def hObjFind : HObj → String → Option HTree
  | .nil, _ => none
  | .cons k v rest, s => if k = s then some v else hObjFind rest s

/-- Walk a generated handler tree along a list of name segments. -/
def hLookup : HTree → List String → Option HTree
  | t, [] => some t
  | .leaf _, _ :: _ => none
  | .node obj, s :: p =>
    match hObjFind obj s with
    | none => none
    | some v => hLookup v p

/-- Walk a generated handler object along a nonempty list of name
segments. -/
def hObjLookup (obj : HObj) : List String → Option HTree
  | [] => none
  | s :: p =>
    match hObjFind obj s with
    | none => none
    | some v => hLookup v p

/-- The dotted name accumulated by mapValuesDeep when descending from a
node whose own dotted name is deepKey along the given segments. -/
def nameAt (deepKey : String) : List String → String
  | [] => deepKey
  | s :: p => nameAt ((deepKey ++ ".") ++ s) p

theorem hObjFind_mapObj (r : Bool) (pre s : String) :
    ∀ obj : MirrorObj,
      hObjFind (mapObj r pre obj) s = Option.map (mapVal r (pre ++ s)) (mObjFind obj s)
  | .nil => rfl
  | .cons k v rest => by
    rw [mapObj, hObjFind, mObjFind]
    by_cases hk : k = s
    · subst hk
      simp
    · simp only [hk, if_neg hk]
      exact hObjFind_mapObj r pre s rest

theorem mapVal_lookup (r : Bool) (p : List String) :
    ∀ (m : Mirror) (d : String), mLookup m p = some .leaf →
      hLookup (mapVal r d m) p = some (.leaf (leafFun r (nameAt d p))) := by
  induction p with
  | nil =>
    intro m d h
    cases m with
    | leaf => rfl
    | node obj =>
      rw [mLookup] at h
      exact absurd (Option.some.inj h) (by intro hc; cases hc)
  | cons s p ih =>
    intro m d h
    cases m with
    | leaf =>
      rw [mLookup] at h
      cases h
    | node obj =>
      rw [mLookup] at h
      cases hf : mObjFind obj s with
      | none =>
        rw [hf] at h
        cases h
      | some v =>
        rw [hf] at h
        have h2 : mLookup v p = some Mirror.leaf := h
        rw [mapVal, hLookup, hObjFind_mapObj, hf, Option.map_some']
        show hLookup (mapVal r ((d ++ ".") ++ s) v) p
            = some (HTree.leaf (leafFun r (nameAt d (s :: p))))
        rw [nameAt]
        exact ih v ((d ++ ".") ++ s) h2

/-- C10.  For every leaf of the client route mirror, the generated url
tree holds at the same position a function that, applied to an argument
list, returns the URL built by passing the whole list as one single
argument to getRouteUrl, and the generated redirect tree holds a function
that calls redirectTo on that same URL; consequently that URL carries
exactly one serialized argument segment, which encodes the entire list as
one EJSON array, whereas the URL navigated to by redirectToRoute with the
same name and arguments carries one serialized segment per argument. -/
theorem createRouteHandlers_leaf (routes : MirrorObj) (s : String) (p : List String)
    (h : mObjLookup routes (s :: p) = some .leaf) :
    hObjLookup (createRouteHandlers false routes) (s :: p)
      = some (.leaf (leafFun false (nameAt s p))) ∧
    hObjLookup (createRouteHandlers true routes) (s :: p)
      = some (.leaf (leafFun true (nameAt s p))) ∧
    (∀ as : EJsonArr,
      leafFun false (nameAt s p) as
        = .urlOf (getRouteUrl (nameAt s p) (.cons (.arr as) .nil)) ∧
      leafFun true (nameAt s p) as
        = .redirectCall (getRouteUrl (nameAt s p) (.cons (.arr as) .nil)) ∧
      argSegs (getRouteUrl (nameAt s p) (.cons (.arr as) .nil))
        = [ejsonStringify (.arr as)] ∧
      argSegs (redirectToRouteUrl (nameAt s p) as) = stringifyEach as ∧
      (stringifyEach as).length = arrLength as) := by
  rw [mObjLookup] at h
  cases hf : mObjFind routes s with
  | none =>
    rw [hf] at h
    cases h
  | some v =>
    rw [hf] at h
    have h2 : mLookup v p = some Mirror.leaf := h
    have hs : (("" : String) ++ s) = s := by
      have : ("" : String).data ++ s.data = s.data := List.nil_append s.data
      exact congrArg String.mk this
    refine ⟨?_, ?_, ?_⟩
    · rw [createRouteHandlers, hObjLookup, hObjFind_mapObj, hf, Option.map_some']
      show hLookup (mapVal false ("" ++ s) v) p
          = some (HTree.leaf (leafFun false (nameAt s p)))
      rw [hs]
      exact mapVal_lookup false p v s h2
    · rw [createRouteHandlers, hObjLookup, hObjFind_mapObj, hf, Option.map_some']
      show hLookup (mapVal true ("" ++ s) v) p
          = some (HTree.leaf (leafFun true (nameAt s p)))
      rw [hs]
      exact mapVal_lookup true p v s h2
    · intro as
      exact ⟨rfl, rfl, rfl, rfl, stringifyEach_length as⟩

/-- C10, witness at a mirror with a single nested leaf rep.pdf and a
two-element argument list. -/
theorem createRouteHandlers_leaf_witness :
    mObjLookup (.cons "rep" (.node (.cons "pdf" .leaf .nil)) .nil) ["rep", "pdf"]
      = some .leaf ∧
    (hObjLookup (createRouteHandlers false
        (.cons "rep" (.node (.cons "pdf" .leaf .nil)) .nil)) ["rep", "pdf"]
      = some (.leaf (leafFun false (nameAt "rep" ["pdf"]))) ∧
    hObjLookup (createRouteHandlers true
        (.cons "rep" (.node (.cons "pdf" .leaf .nil)) .nil)) ["rep", "pdf"]
      = some (.leaf (leafFun true (nameAt "rep" ["pdf"]))) ∧
    (∀ as : EJsonArr,
      leafFun false (nameAt "rep" ["pdf"]) as
        = .urlOf (getRouteUrl (nameAt "rep" ["pdf"]) (.cons (.arr as) .nil)) ∧
      leafFun true (nameAt "rep" ["pdf"]) as
        = .redirectCall (getRouteUrl (nameAt "rep" ["pdf"]) (.cons (.arr as) .nil)) ∧
      argSegs (getRouteUrl (nameAt "rep" ["pdf"]) (.cons (.arr as) .nil))
        = [ejsonStringify (.arr as)] ∧
      argSegs (redirectToRouteUrl (nameAt "rep" ["pdf"]) as) = stringifyEach as ∧
      (stringifyEach as).length = arrLength as)) :=
  ⟨rfl, createRouteHandlers_leaf (.cons "rep" (.node (.cons "pdf" .leaf .nil)) .nil)
    "rep" ["pdf"] rfl⟩

end ServerRouter
